import Mathlib

/-!
Verification of the SwaggerAPISample repository: a shallow embedding of the
schema/parameter samplers, the request builder, the operation lister and the
executor dispatch of `swagger_API.py`, and of the listing aggregation helpers
of `generate_filelist_json.py`, together with proofs that settle the claims
about them.
-/

/-- A JSON value as produced by Python's `json.load`.  Numbers are modelled as
integers (the documents exercised by the program carry integer literals only;
no claim involves floats); object fields keep insertion order, mirroring
Python dicts, and keys are unique after `json.load` parsing. -/
inductive Json where
  | null : Json
  | bool (b : Bool) : Json
  | int (n : Int) : Json
  | str (s : String) : Json
  | arr (elems : List Json) : Json
  | obj (fields : List (String × Json)) : Json

/-- Result of running a piece of the Python code: a normal value, a raised
exception (tagged with the exception class name), or fuel exhaustion, which
models a computation that may not terminate. -/
inductive PRes (α : Type) where
  | ok (v : α) : PRes α
  | exn (e : String) : PRes α
  | diverge : PRes α

def PRes.bind {α β : Type} : PRes α → (α → PRes β) → PRes β
  | .ok v, f => f v
  | .exn e, _ => .exn e
  | .diverge, _ => .diverge

instance : Monad PRes where
  pure := PRes.ok
  bind := PRes.bind

@[simp] theorem PRes.bind_ok {α β : Type} (v : α) (f : α → PRes β) :
    PRes.bind (.ok v) f = f v := rfl

@[simp] theorem PRes.bind_exn {α β : Type} (e : String) (f : α → PRes β) :
    PRes.bind (.exn e) f = .exn e := rfl

@[simp] theorem PRes.bind_diverge {α β : Type} (f : α → PRes β) :
    PRes.bind .diverge f = .diverge := rfl

@[simp] theorem PRes.pure_eq {α : Type} (v : α) : (pure v : PRes α) = .ok v := rfl

@[simp] theorem PRes.bind_eq {α β : Type} (m : PRes α) (f : α → PRes β) :
    m >>= f = m.bind f := rfl

/-- Python truthiness (`bool(x)`) on JSON values. -/
def Json.truthy : Json → Bool
  | .null => false
  | .bool b => b
  | .int n => n != 0
  | .str s => s != ""
  | .arr elems => !elems.isEmpty
  | .obj fields => !fields.isEmpty

/-- Python `x == "lit"` for a JSON value `x` and a string literal: true exactly
when `x` is that string. -/
def Json.isStrEq : Json → String → Bool
  | .str s, t => s == t
  | _, _ => false

@[simp] theorem Json.truthy_null : (Json.null).truthy = false := rfl

@[simp] theorem Json.truthy_bool (b : Bool) : (Json.bool b).truthy = b := rfl

@[simp] theorem Json.truthy_int (n : Int) : (Json.int n).truthy = (n != 0) := rfl

@[simp] theorem Json.truthy_str (s : String) : (Json.str s).truthy = (s != "") := rfl

@[simp] theorem Json.truthy_arr (elems : List Json) :
    (Json.arr elems).truthy = !elems.isEmpty := rfl

@[simp] theorem Json.truthy_obj (fields : List (String × Json)) :
    (Json.obj fields).truthy = !fields.isEmpty := rfl

@[simp] theorem Json.isStrEq_null (t : String) : (Json.null).isStrEq t = false := rfl

@[simp] theorem Json.isStrEq_bool (b : Bool) (t : String) :
    (Json.bool b).isStrEq t = false := rfl

@[simp] theorem Json.isStrEq_int (n : Int) (t : String) :
    (Json.int n).isStrEq t = false := rfl

@[simp] theorem Json.isStrEq_str (s t : String) :
    (Json.str s).isStrEq t = (s == t) := rfl

@[simp] theorem Json.isStrEq_arr (elems : List Json) (t : String) :
    (Json.arr elems).isStrEq t = false := rfl

@[simp] theorem Json.isStrEq_obj (fields : List (String × Json)) (t : String) :
    (Json.obj fields).isStrEq t = false := rfl

/-- First binding of `key` in an ordered field list (Python dict lookup; keys
are unique after `json.load`). -/
def lookupField : List (String × Json) → String → Option Json
  | [], _ => none
  | (k, v) :: rest, key => if k == key then some v else lookupField rest key

/-- Python `d.get(key)` (default `None`); raises `AttributeError` on
non-dicts. -/
def pyGet (j : Json) (key : String) : PRes Json :=
  match j with
  | .obj fields => .ok ((lookupField fields key).getD .null)
  | _ => .exn "AttributeError"

/-- Python `d.get(key, default)`; raises `AttributeError` on non-dicts. -/
def pyGetD (j : Json) (key : String) (dflt : Json) : PRes Json :=
  match j with
  | .obj fields => .ok ((lookupField fields key).getD dflt)
  | _ => .exn "AttributeError"

/-- Boolean substring test on character lists (Python `needle in haystack`
for strings). -/
def hasSubseq (needle : List Char) : List Char → Bool
  | [] => needle.isEmpty
  | c :: cs => needle.isPrefixOf (c :: cs) || hasSubseq needle cs

/-- Python `key in j` for a string literal `key`: key membership on dicts,
substring test on strings, element membership on lists; `TypeError` on the
non-iterable scalars. -/
def pyIn (key : String) (j : Json) : PRes Bool :=
  match j with
  | .obj fields => .ok (lookupField fields key).isSome
  | .str s => .ok (hasSubseq key.toList s.toList)
  | .arr elems => .ok (elems.any (fun x => x.isStrEq key))
  | _ => .exn "TypeError"


/-- Python `a or b` on JSON values (returns `a` when truthy, else `b`). -/
def pyOr (a b : Json) : Json := if a.truthy then a else b

/-- `key.replace('"', '')`: remove every double-quote character. -/
def stripQuotes (s : String) : String :=
  (s.toList.filter (fun c => c != Char.ofNat 34)).asString

/-- `pre.isPrefixOf cs` and, when it holds, the remaining characters. -/
def dropPrefixQ (pre cs : List Char) : Option (List Char) :=
  if pre.isPrefixOf cs then some (cs.drop pre.length) else none

/-- The final `/([^/]+)$` piece of the reference regex: the candidate must be
a slash followed by a non-empty run of non-slash characters reaching the end
of the string; the run is the captured group. -/
def refTail (cs : List Char) : Option (List Char) :=
  match cs with
  | c :: rest =>
      if c = '/' && !rest.isEmpty && rest.all (fun d => d != '/') then some rest
      else none
  | [] => none

/-- `re.match(r"#/?(?:definitions|components/schemas)?/([^/]+)$", ref)`:
the captured group, if the whole pattern matches.  Candidates are tried in
the regex engine's backtracking order (greedy `/?` first; alternatives
`definitions`, `components/schemas`, empty in order). -/
def refCapture (r : String) : Option String :=
  match r.toList with
  | c :: rest =>
      if c = '#' then
        let slashCands : List (List Char) :=
          match rest with
          | d :: rest2 => if d = '/' then [rest2, rest] else [rest]
          | [] => [[]]
        let groupCands : List (List Char) :=
          slashCands.flatMap (fun a =>
            ((dropPrefixQ "definitions".toList a).toList ++
             (dropPrefixQ "components/schemas".toList a).toList) ++ [a])
        match groupCands.findSome? refTail with
        | some tl => some tl.asString
        | none => none
      else none
  | [] => none

/-- The two strings the program obtains from `datetime.utcnow()`:
`strftime('%Y%m%d')` and `isoformat()`.  The wall clock is an external input,
so it is passed in explicitly. -/
structure PyClock where
  ymd : String
  iso : String

/-- The `for k, v in props.items(): obj[k] = rec(v)` loop of the object case:
map the recursive sampler over the fields in order, propagating the first
exception or fuel exhaustion. -/
def mapFieldsM (g : Json → PRes Json) : List (String × Json) → PRes (List (String × Json))
  | [] => .ok []
  | (k, v) :: rest =>
      match g v with
      | .ok jv =>
          match mapFieldsM g rest with
          | .ok tail => .ok ((k, jv) :: tail)
          | .exn e => .exn e
          | .diverge => .diverge
      | .exn e => .exn e
      | .diverge => .diverge

/-- One unfolding of `make_sample_body_from_schema` (swagger_API.py lines
74-115), parameterized by the recursive callee `rec`.  For a truthy non-dict
schema the Python subscript/attribute operations raise (`TypeError` or
`AttributeError` depending on the shape); the model reports `TypeError`. -/
def make_sample_step (clock : PyClock) (rec : Json → Json → PRes Json)
    (schema defs : Json) : PRes Json :=
  if schema.truthy = false then .ok (.obj []) else
  match schema with
  | .obj kvs =>
    match lookupField kvs "$ref" with
    | some refv =>
      match refv with
      | .str r =>
        match refCapture r with
        | some key =>
            if defs.truthy then
              match pyGet defs key with
              | .ok v1 =>
                  match (if v1.truthy then .ok v1 else pyGet defs (stripQuotes key)) with
                  | .ok sub => if sub.truthy then rec sub defs else .ok (.obj [])
                  | .exn e => .exn e
                  | .diverge => .diverge
              | .exn e => .exn e
              | .diverge => .diverge
            else .ok (.obj [])
        | none => .ok (.obj [])
      | _ => .exn "TypeError"
    | none =>
      let t0 := (lookupField kvs "type").getD .null
      let t := if t0.truthy = false && (lookupField kvs "properties").isSome
               then Json.str "object" else t0
      if t.isStrEq "object" then
        match (lookupField kvs "properties").getD (.obj []) with
        | .obj pkvs =>
            match mapFieldsM (fun v => rec v defs) pkvs with
            | .ok fields => .ok (.obj fields)
            | .exn e => .exn e
            | .diverge => .diverge
        | _ => .exn "AttributeError"
      else if t.isStrEq "array" then
        match rec ((lookupField kvs "items").getD (.obj [])) defs with
        | .ok v => .ok (.arr [v])
        | .exn e => .exn e
        | .diverge => .diverge
      else if t.isStrEq "integer" || t.isStrEq "number" then .ok (.int 1)
      else if t.isStrEq "boolean" then .ok (.bool true)
      else
        let fmt := (lookupField kvs "format").getD (.str "")
        if fmt.isStrEq "date" then .ok (.str clock.ymd)
        else if fmt.isStrEq "date-time" then .ok (.str (clock.iso ++ "Z"))
        else
          match lookupField kvs "enum" with
          | some (.arr (e :: _)) => .ok e
          | some (.arr []) => .exn "IndexError"
          | _ => .ok (pyOr ((lookupField kvs "example").getD .null) (.str "sample"))
  | _ => .exn "TypeError"

/-- `make_sample_body_from_schema(schema, definitions)` with explicit fuel:
`diverge` models running out of fuel (only reachable through `$ref`
recursion chains longer than the fuel). -/
def make_sample_body_from_schema (clock : PyClock) : Nat → Json → Json → PRes Json
  | 0, _, _ => .diverge
  | fuel + 1, schema, defs =>
      make_sample_step clock (make_sample_body_from_schema clock fuel) schema defs

/-- `sample_for_type(param)` (swagger_API.py lines 48-71).  The enum branch
fires only for a non-empty list; `re.search(r"\\d", param['pattern'])` looks
for the literal two-character substring `\d` (the raw pattern `\\d` matches a
backslash followed by `d`); a non-string `pattern` makes `re.search` raise. -/
def sample_for_type (clock : PyClock) (param : Json) : PRes Json :=
  if param.truthy = false then .ok (.str "sample") else
  match param with
  | .obj kvs =>
    match lookupField kvs "enum" with
    | some (.arr (e :: _)) => .ok e
    | _ =>
      let t := (lookupField kvs "type").getD (.str "string")
      let fmt := (lookupField kvs "format").getD (.str "")
      if t.isStrEq "integer" || t.isStrEq "number" then .ok (.int 1)
      else if t.isStrEq "boolean" then .ok (.bool true)
      else if fmt.isStrEq "date" then .ok (.str clock.ymd)
      else if fmt.isStrEq "date-time" then .ok (.str (clock.iso ++ "Z"))
      else
        match lookupField kvs "pattern" with
        | some (.str p) =>
            if hasSubseq "\\d".toList p.toList then .ok (.str "123")
            else .ok (.str "sample")
        | some _ => .exn "TypeError"
        | none => .ok (.str "sample")
  | _ => .exn "TypeError"

/-- `ch` is in the character class `[0-9A-Za-z._-]` of the two sanitizing
regexes. -/
def allowedChar (c : Char) : Bool :=
  (c ≥ '0' && c ≤ '9') || (c ≥ 'A' && c ≤ 'Z') || (c ≥ 'a' && c ≤ 'z') ||
  c = '.' || c = '_' || c = '-'

theorem dropWhile_length_le {α : Type} (p : α → Bool) :
    ∀ l : List α, (l.dropWhile p).length ≤ l.length
  | [] => Nat.le_refl _
  | a :: l => by
      by_cases h : p a
      · rw [List.dropWhile_cons_of_pos h]
        exact Nat.le_succ_of_le (dropWhile_length_le p l)
      · rw [List.dropWhile_cons_of_neg h]

/-- `re.sub(r"[^0-9A-Za-z._-]+", "_", name)` on a character list: scanning
left to right, each maximal (leftmost-longest) run matched by the class
complement is replaced by a single underscore. -/
def subDisallowedRuns : List Char → List Char
  | [] => []
  | c :: cs =>
      if allowedChar c then c :: subDisallowedRuns cs
      else '_' :: subDisallowedRuns (cs.dropWhile (fun d => !allowedChar d))
termination_by l => l.length
decreasing_by
  all_goals simp only [List.length_cons]
  · omega
  · exact Nat.lt_succ_of_le (dropWhile_length_le _ _)

/-- `sanitize_filename(name)` (swagger_API.py lines 131-132). -/
def sanitize_filename (name : String) : String :=
  (subDisallowedRuns name.toList).asString

/-- Python `s.upper()` (the inputs are plain ASCII method names). -/
def pyUpper (s : String) : String := (s.toList.map Char.toUpper).asString

/-- Python `s.lower()` (the inputs are plain ASCII method names). -/
def pyLower (s : String) : String := (s.toList.map Char.toLower).asString

/-- `f"{method.upper()}_{sanitize_filename(path)}.json"` — the output file
name built in the main loop (swagger_API.py line 300). -/
def endpoint_filename (method path : String) : String :=
  pyUpper method ++ "_" ++ sanitize_filename path ++ ".json"

/-- A single-quote character (written via its code point). -/
def pySq : String := (Char.ofNat 39).toString

/-- Python `repr` of a JSON value, used inside `str()` of containers.  String
`repr` is modelled for strings without quotes or backslashes (always
single-quoted, no escaping), which covers every value the claims exercise. -/
def pyRepr : Json → String
  | .null => "None"
  | .bool true => "True"
  | .bool false => "False"
  | .int n => toString n
  | .str s => pySq ++ s ++ pySq
  | .arr elems =>
      "[" ++ String.intercalate ", " (elems.attach.map (fun x => pyRepr x.1)) ++ "]"
  | .obj fields =>
      "\x7b" ++
        String.intercalate ", "
          (fields.attach.map (fun kv => pySq ++ kv.1.1 ++ pySq ++ ": " ++ pyRepr kv.1.2)) ++
      "\x7d"
termination_by j => sizeOf j
decreasing_by
  all_goals simp_wf
  · exact Nat.lt_add_left 1 (List.sizeOf_lt_of_mem x.2)
  · exact Nat.lt_add_left 1
      (Nat.lt_of_lt_of_le (by cases h : kv.1 with | mk a b => simp [h])
        (Nat.le_of_lt (List.sizeOf_lt_of_mem kv.2)))

/-- Python `str(sample)` on a JSON value. -/
def pyStr : Json → String
  | .null => "None"
  | .bool true => "True"
  | .bool false => "False"
  | .int n => toString n
  | .str s => s
  | .arr elems => pyRepr (.arr elems)
  | .obj fields => pyRepr (.obj fields)

/-- Python `s.replace(old, new)` on character lists: non-overlapping
occurrences are replaced left to right.  The fuel is instantiated with the
list's length, which suffices because every step consumes at least one
character (`old` is never empty at the call sites: it is `'{' + name + '}'`). -/
def pyReplaceAux (pat repl : List Char) : Nat → List Char → List Char
  | 0, cs => cs
  | _ + 1, [] => []
  | fuel + 1, c :: cs =>
      if !pat.isEmpty && pat.isPrefixOf (c :: cs) then
        repl ++ pyReplaceAux pat repl fuel ((c :: cs).drop pat.length)
      else c :: pyReplaceAux pat repl fuel cs

/-- Python `s.replace(old, new)` on strings. -/
def pyReplace (s pat repl : String) : String :=
  (pyReplaceAux pat.toList repl.toList s.toList.length s.toList).asString

/-- `repl` cannot keep or re-create an occurrence of `pat` around a
substitution site of `s.replace`: no non-empty suffix of `repl` begins `pat`,
no non-empty prefix of `repl` ends `pat`, and neither list contains the
other.  (`str.replace` leaves or re-creates the removed pattern exactly
through such overlaps between the inserted text and the surrounding text.) -/
def noRecreate (pat repl : List Char) : Prop :=
  (∀ s ∈ repl.tails, s = [] ∨ ¬ s <+: pat) ∧
  (∀ r ∈ repl.inits, r = [] ∨ ¬ r <:+ pat) ∧
  ¬ repl <:+: pat ∧ ¬ pat <:+: repl

instance (pat repl : List Char) : Decidable (noRecreate pat repl) := by
  unfold noRecreate
  infer_instance

/-- Python `path.lstrip('/')`: drop every leading slash. -/
def pyLstripSlash (s : String) : String :=
  (s.toList.dropWhile (fun c => c = '/')).asString

/-- Modelled from `urllib.parse.urljoin(base, rel)` (Python stdlib, external
to the repository) for the shape used at the call site — `base` ends in `/`
and `rel` is a scheme-less relative path with no leading slash and no dot
segments — where the join is plain concatenation. -/
def pyUrljoin (base rel : String) : String := base ++ rel

/-- Python dict assignment `d[k] = v` on an ordered field list: replace in
place if the key exists, else append.  Keys are modelled as strings; the
documents the program consumes only yield string parameter names (any other
name would make the output unserializable downstream). -/
def dictSetStr (fields : List (String × Json)) (k : String) (v : Json) :
    List (String × Json) :=
  match fields with
  | [] => [(k, v)]
  | (k1, v1) :: rest =>
      if k1 == k then (k1, v) :: rest else (k1, v1) :: dictSetStr rest k v

/-- The mutable loop state of `build_request_for_operation`: current url,
query params, headers and body (`Json.null` models Python `None`). -/
structure BuildState where
  url : String
  params : List (String × Json)
  headers : List (String × Json)
  body : Json

/-- The built request dict `{'url', 'method', 'headers', 'params', 'json'}`
(swagger_API.py lines 213-219). -/
structure Req where
  url : String
  method : String
  headers : List (String × Json)
  params : List (String × Json)
  json : Json

/-- Resolution of the definitions table (swagger_API.py lines 166-172):
Swagger 2.0 `definitions`, overridden by OpenAPI 3 `components.schemas`
when present. -/
def resolve_definitions (swagger : Json) : PRes Json := do
  let hasDefs ← pyIn "definitions" swagger
  let defs1 ← if hasDefs then pyGet swagger "definitions" else pure (Json.obj [])
  let hasComp ← pyIn "components" swagger
  if hasComp then do
    let comp ← pyGet swagger "components"
    let hasSch ← pyIn "schemas" comp
    if hasSch then pyGet comp "schemas" else pure defs1
  else pure defs1

/-- The per-parameter sample (swagger_API.py lines 179-183): the schema
sampler when the declaration nests a `schema`, the flat parameter sampler
otherwise. -/
def param_sample (clock : PyClock) (fuel : Nat) (defs p : Json) : PRes Json := do
  let hasSchema ← pyIn "schema" p
  if hasSchema then do
    let sch ← pyGet p "schema"
    make_sample_body_from_schema clock fuel sch defs
  else sample_for_type clock p

/-- The `in`-dispatch of one parameter (swagger_API.py lines 184-197).
`'{' + name + '}'` raises `TypeError` for a non-string name; query/header
names and `formData` keys are modelled as strings (see `dictSetStr`). -/
def apply_param (st : BuildState) (pin name sample : Json) : PRes BuildState :=
  if pin.isStrEq "path" then
    match name with
    | .str nm =>
        .ok { st with url := pyReplace st.url ("\x7b" ++ nm ++ "\x7d") (pyStr sample) }
    | _ => .exn "TypeError"
  else if pin.isStrEq "query" then
    match name with
    | .str nm => .ok { st with params := dictSetStr st.params nm sample }
    | _ => .exn "TypeError"
  else if pin.isStrEq "header" then
    match name with
    | .str nm => .ok { st with headers := dictSetStr st.headers nm sample }
    | _ => .exn "TypeError"
  else if pin.isStrEq "body" then .ok { st with body := sample }
  else if pin.isStrEq "formData" then
    match st.body with
    | .null =>
        match name with
        | .str nm => .ok { st with body := .obj [(nm, sample)] }
        | _ => .exn "TypeError"
    | .obj fields =>
        match name with
        | .str nm => .ok { st with body := .obj (dictSetStr fields nm sample) }
        | _ => .exn "TypeError"
    | _ => .exn "TypeError"
  else .ok st

/-- The `for p in parameters` loop (swagger_API.py lines 176-197). -/
def build_params (clock : PyClock) (fuel : Nat) (defs : Json) :
    BuildState → List Json → PRes BuildState
  | st, [] => .ok st
  | st, p :: rest => do
      let pin ← pyGet p "in"
      let name ← pyGet p "name"
      let sample ← param_sample clock fuel defs p
      let st2 ← apply_param st pin name sample
      build_params clock fuel defs st2 rest

/-- The OpenAPI 3 `requestBody` handling (swagger_API.py lines 200-211):
prefer the `application/json` entry's schema, else the first declared
content type's; the synthesized body overrides the parameter-built one. -/
def request_body_override (clock : PyClock) (fuel : Nat) (defs operation : Json)
    (body : Json) : PRes Json := do
  let hasRB ← pyIn "requestBody" operation
  if hasRB then do
    let rb ←
      match operation with
      | .obj okvs => pure ((lookupField okvs "requestBody").getD .null)
      | _ => PRes.exn "TypeError"
    let content ← pyGetD rb "content" (.obj [])
    match content with
    | .obj ckvs =>
        match lookupField ckvs "application/json" with
        | some entry => do
            let sch ← pyGet entry "schema"
            make_sample_body_from_schema clock fuel sch defs
        | none =>
            match ckvs with
            | [] => pure body
            | (_, v) :: _ => do
                let sch ← pyGet v "schema"
                make_sample_body_from_schema clock fuel sch defs
    | _ => PRes.exn "TypeError"
  else pure body

/-- `build_request_for_operation(base_url, path, method, operation, swagger)`
(swagger_API.py lines 160-219).  Iterating a truthy non-list `parameters`
value either does nothing (empty string/dict) or raises once the loop body
touches the yielded items. -/
def build_request_for_operation (clock : PyClock) (fuel : Nat)
    (base_url path method : String) (operation swagger : Json) : PRes Req := do
  let url0 := pyUrljoin (base_url ++ "/") (pyLstripSlash path)
  let defs ← resolve_definitions swagger
  let parameters ← pyGetD operation "parameters" (.arr [])
  let st0 : BuildState :=
    ⟨url0, [], [("Accept", .str "application/json")], .null⟩
  let st ←
    match parameters with
    | .arr ps => build_params clock fuel defs st0 ps
    | .str "" => pure st0
    | .obj [] => pure st0
    | _ => PRes.exn "TypeError"
  let finalBody ← request_body_override clock fuel defs operation st.body
  pure ⟨st.url, pyUpper method, st.headers, st.params, finalBody⟩

/-- The inner loops of `list_operations` (swagger_API.py lines 135-143):
for each path, keep the methods among get/post/put/patch/delete, lowercased,
in declaration order. -/
def ops_of_path (path : String) (mkvs : List (String × Json)) :
    List (String × String × Json) :=
  mkvs.filterMap (fun mo =>
    let lm := pyLower mo.1
    if lm == "get" || lm == "post" || lm == "put" || lm == "patch" || lm == "delete"
    then some (path, lm, mo.2) else none)

/-- The outer loop of `list_operations`: `methods.items()` raises on a
non-dict value. -/
def list_ops_go : List (String × Json) → PRes (List (String × String × Json))
  | [] => .ok []
  | (path, methods) :: rest =>
      match methods with
      | .obj mkvs =>
          match list_ops_go rest with
          | .ok tail => .ok (ops_of_path path mkvs ++ tail)
          | .exn e => .exn e
          | .diverge => .diverge
      | _ => .exn "AttributeError"

/-- `list_operations(swagger)` (swagger_API.py lines 135-143). -/
def list_operations (swagger : Json) : PRes (List (String × String × Json)) :=
  match swagger with
  | .obj skvs =>
      match (lookupField skvs "paths").getD (.obj []) with
      | .obj pathkvs => list_ops_go pathkvs
      | _ => .exn "AttributeError"
  | _ => .exn "AttributeError"

/-- What `execute_request` decides to do before any I/O happens: dispatch to
one of the four network branches, or — for any other method — return the
`{'error': ...}` dict without performing a network request
(swagger_API.py lines 222-234). -/
inductive ExecPlan where
  | httpGet : ExecPlan
  | httpPost : ExecPlan
  | httpPut : ExecPlan
  | httpDelete : ExecPlan
  | noRequest (result : Json) : ExecPlan

/-- The method dispatch of `execute_request(req)`. -/
def execute_request_plan (req : Req) : ExecPlan :=
  if req.method == "GET" then .httpGet
  else if req.method == "POST" then .httpPost
  else if req.method == "PUT" then .httpPut
  else if req.method == "DELETE" then .httpDelete
  else .noRequest (.obj [("error", .str ("Unsupported method " ++ req.method))])

/-- `extract_body_count(data)` (generate_filelist_json.py lines 36-43): the
length of `response.body` when every `isinstance` guard holds and the body is
a list, else `0`. -/
def extract_body_count (data : Json) : Nat :=
  match data with
  | .obj kvs =>
      match lookupField kvs "response" with
      | some (.obj rkvs) =>
          match lookupField rkvs "body" with
          | some (.arr elems) => elems.length
          | _ => 0
      | _ => 0
  | _ => 0

/-- `count = extract_body_count(data) if data is not None else None`
(generate_filelist_json.py line 67); `none` models Python `None`, i.e. a
file whose JSON failed to parse (or parsed to JSON null). -/
def listing_count (data : Option Json) : Option Nat :=
  match data with
  | some d => some (extract_body_count d)
  | none => none

theorem lookupField_ne_nil {kvs : List (String × Json)} {k : String} {v : Json}
    (h : lookupField kvs k = some v) : kvs ≠ [] := by
  intro he
  subst he
  simp [lookupField] at h

theorem obj_truthy_of_lookup {kvs : List (String × Json)} {k : String} {v : Json}
    (h : lookupField kvs k = some v) : (Json.obj kvs).truthy = true := by
  have hne := lookupField_ne_nil h
  simp [Json.truthy, hne]

/-- C2.  The Schema Sample Synthesizer is claimed never to raise, degrading
unsupported shapes to an empty object or `"sample"`; in particular a
string-like fragment with `enum: []` is claimed to degrade.  The code instead
evaluates `schema['enum'][0]` guarded only by `isinstance(..., list)`
(swagger_API.py line 113-114), so an empty enum list raises `IndexError` —
the sibling `sample_for_type` (line 54) guards non-emptiness, showing the
intent.  This theorem evaluates the code at the failing input. -/
theorem c2_enum_empty_raises :
    make_sample_body_from_schema ⟨"20250101", "2025-01-01T00:00:00"⟩ 1
      (.obj [("enum", .arr [])]) .null = .exn "IndexError" := rfl

/-- C5.  For every parameter declaration whose `enum` is present, a list and
non-empty, `sample_for_type` returns exactly the first listed enum value,
regardless of the declared `type`, `format` or `pattern`. -/
theorem c5_enum_first (clock : PyClock) (kvs : List (String × Json))
    (e : Json) (es : List Json)
    (h : lookupField kvs "enum" = some (.arr (e :: es))) :
    sample_for_type clock (.obj kvs) = .ok e := by
  have ht := obj_truthy_of_lookup h
  simp [sample_for_type, ht, h]

/-- Witness for C5 at a concrete declaration whose `type`, `format` and
`pattern` would all suggest different samples. -/
theorem c5_enum_first_witness :
    lookupField [("enum", Json.arr [.str "A", .str "B"]), ("type", Json.str "integer"),
        ("pattern", Json.str "\\d")] "enum" = some (.arr [.str "A", .str "B"]) ∧
    sample_for_type ⟨"20250101", "2025-01-01T00:00:00"⟩
      (.obj [("enum", .arr [.str "A", .str "B"]), ("type", .str "integer"),
        ("pattern", .str "\\d")]) = .ok (.str "A") :=
  ⟨rfl, c5_enum_first _ _ _ _ rfl⟩

/-- C6.  `$ref` resolution: the concrete `#/definitions/Foo` lookup yields
the integer sample `1`; a `$ref` whose captured key misses the table (both as
captured and with double quotes stripped) yields `{}`; and a `$ref` with no
definitions table at all (Python `None`) yields `{}` — never raising. -/
theorem c6_ref_resolution (clock : PyClock) :
    (make_sample_body_from_schema clock 2 (.obj [("$ref", .str "#/definitions/Foo")])
        (.obj [("Foo", .obj [("type", .str "integer")])]) = .ok (.int 1)) ∧
    (∀ (fuel : Nat) (kvs : List (String × Json)) (r key : String) (defs : Json),
        lookupField kvs "$ref" = some (.str r) →
        refCapture r = some key →
        pyGet defs key = .ok .null →
        pyGet defs (stripQuotes key) = .ok .null →
        make_sample_body_from_schema clock (fuel + 1) (.obj kvs) defs = .ok (.obj [])) ∧
    (∀ (fuel : Nat) (kvs : List (String × Json)) (r : String),
        lookupField kvs "$ref" = some (.str r) →
        make_sample_body_from_schema clock (fuel + 1) (.obj kvs) .null = .ok (.obj [])) := by
  refine ⟨rfl, ?_, ?_⟩
  · intro fuel kvs r key defs href hcap hget hgets
    have ht := obj_truthy_of_lookup href
    cases defs with
    | obj dkvs =>
        have h1 : (lookupField dkvs key).getD .null = .null := by
          simpa [pyGet] using hget
        have h2 : (lookupField dkvs (stripQuotes key)).getD .null = .null := by
          simpa [pyGet] using hgets
        simp [make_sample_body_from_schema, make_sample_step, ht, href, hcap, pyGet,
          h1, h2, Json.truthy]
    | null => simp [pyGet] at hget
    | bool b => simp [pyGet] at hget
    | int n => simp [pyGet] at hget
    | str s => simp [pyGet] at hget
    | arr elems => simp [pyGet] at hget
  · intro fuel kvs r href
    have ht := obj_truthy_of_lookup href
    cases hcap : refCapture r with
    | some key => simp [make_sample_body_from_schema, make_sample_step, ht, href, hcap,
        Json.truthy]
    | none => simp [make_sample_body_from_schema, make_sample_step, ht, href, hcap]

/-- Witness for C6 at the missing-key and absent-table cases. -/
theorem c6_ref_resolution_witness :
    (lookupField [("$ref", Json.str "#/definitions/Missing")] "$ref" =
        some (.str "#/definitions/Missing")) ∧
    refCapture "#/definitions/Missing" = some "Missing" ∧
    pyGet (.obj [("Foo", .int 3)]) "Missing" = .ok .null ∧
    make_sample_body_from_schema ⟨"20250101", "2025-01-01T00:00:00"⟩ 1
      (.obj [("$ref", .str "#/definitions/Missing")]) (.obj [("Foo", .int 3)]) =
      .ok (.obj []) ∧
    make_sample_body_from_schema ⟨"20250101", "2025-01-01T00:00:00"⟩ 1
      (.obj [("$ref", .str "#/definitions/Missing")]) .null = .ok (.obj []) :=
  ⟨rfl, rfl, rfl,
    (c6_ref_resolution _).2.1 0 _ _ _ _ rfl rfl rfl rfl,
    (c6_ref_resolution _).2.2 0 _ _ rfl⟩

/-- C3, counterexample.  The claim says a string-like fragment carrying an
`example` returns that example even when it is falsy; but for
`{"example": ""}` the code's `schema.get('example') or 'sample'`
(swagger_API.py line 115) discards the falsy empty string and returns
`"sample"`. -/
theorem c3_falsy_example_counterexample :
    make_sample_body_from_schema ⟨"20250101", "2025-01-01T00:00:00"⟩ 1
      (.obj [("example", .str "")]) .null = .ok (.str "sample") ∧
    make_sample_body_from_schema ⟨"20250101", "2025-01-01T00:00:00"⟩ 1
      (.obj [("example", .str "")]) .null ≠ .ok (.str "") := by
  refine ⟨rfl, fun h => ?_⟩
  have h2 : (PRes.ok (Json.str "sample") : PRes Json) = .ok (.str "") := h
  simp at h2

/-- C3, amended.  For a string-like schema fragment (no `$ref`; `type` is
`"string"`, or absent with no `properties`; no date/date-time `format`; no
`enum`) that carries an `example` field, synthesis returns the example only
when it is truthy; a falsy example (such as `""`, `0`, `false` or `null`)
yields the literal `"sample"`, exactly as an absent example does. -/
theorem c3_example_truthy_only (clock : PyClock) (fuel : Nat) (defs : Json)
    (kvs : List (String × Json)) (ex : Json)
    (href : lookupField kvs "$ref" = none)
    (htype : lookupField kvs "type" = some (.str "string") ∨
      (lookupField kvs "type" = none ∧ lookupField kvs "properties" = none))
    (hfd : ((lookupField kvs "format").getD (.str "")).isStrEq "date" = false)
    (hfdt : ((lookupField kvs "format").getD (.str "")).isStrEq "date-time" = false)
    (henum : lookupField kvs "enum" = none)
    (hex : lookupField kvs "example" = some ex) :
    (ex.truthy = true →
      make_sample_body_from_schema clock (fuel + 1) (.obj kvs) defs = .ok ex) ∧
    (ex.truthy = false →
      make_sample_body_from_schema clock (fuel + 1) (.obj kvs) defs = .ok (.str "sample")) := by
  have ht := obj_truthy_of_lookup hex
  have key : make_sample_body_from_schema clock (fuel + 1) (.obj kvs) defs =
      .ok (pyOr ((lookupField kvs "example").getD .null) (.str "sample")) := by
    rcases htype with hstr | ⟨hnone, hprops⟩
    · rcases hfmt : lookupField kvs "format" with _ | fv
      · simp [make_sample_body_from_schema, make_sample_step, ht, href, hstr, hfmt, henum]
      · rw [hfmt] at hfd hfdt
        cases fv <;>
          simp_all [make_sample_body_from_schema, make_sample_step, ht, href, hstr,
            hfmt, henum]
    · rcases hfmt : lookupField kvs "format" with _ | fv
      · simp [make_sample_body_from_schema, make_sample_step, ht, href, hnone, hprops,
          hfmt, henum]
      · rw [hfmt] at hfd hfdt
        cases fv <;>
          simp_all [make_sample_body_from_schema, make_sample_step, ht, href, hnone,
            hprops, hfmt, henum]
  rw [key, hex]
  constructor <;> intro htr <;> simp [pyOr, htr]

/-- Witness for C3 (amended) at a truthy and at a falsy example. -/
theorem c3_example_truthy_only_witness :
    make_sample_body_from_schema ⟨"20250101", "2025-01-01T00:00:00"⟩ 1
      (.obj [("type", .str "string"), ("example", .str "hello")]) .null =
      .ok (.str "hello") ∧
    make_sample_body_from_schema ⟨"20250101", "2025-01-01T00:00:00"⟩ 1
      (.obj [("type", .str "string"), ("example", .int 0)]) .null =
      .ok (.str "sample") :=
  ⟨(c3_example_truthy_only ⟨"20250101", "2025-01-01T00:00:00"⟩ 0 .null
      [("type", .str "string"), ("example", .str "hello")] (.str "hello")
      rfl (Or.inl rfl) rfl rfl rfl rfl).1 rfl,
   (c3_example_truthy_only ⟨"20250101", "2025-01-01T00:00:00"⟩ 0 .null
      [("type", .str "string"), ("example", .int 0)] (.int 0)
      rfl (Or.inl rfl) rfl rfl rfl rfl).2 rfl⟩

/-- C7, counterexample.  The claim says a pattern that "appears to require
digits" such as `[0-9]+` yields `"123"`; but `re.search(r"\\d", pattern)`
(swagger_API.py line 69) looks for the literal substring `\d`, which
`[0-9]+` does not contain, so the sampler returns `"sample"`. -/
theorem c7_pattern_counterexample :
    sample_for_type ⟨"20250101", "2025-01-01T00:00:00"⟩
      (.obj [("pattern", .str "[0-9]+")]) = .ok (.str "sample") ∧
    sample_for_type ⟨"20250101", "2025-01-01T00:00:00"⟩
      (.obj [("pattern", .str "[0-9]+")]) ≠ .ok (.str "123") := by
  refine ⟨rfl, fun h => ?_⟩
  have h2 : (PRes.ok (Json.str "sample") : PRes Json) = .ok (.str "123") := h
  simp at h2

/-- C7, amended.  For a parameter declaration with no `enum`, no declared
type (or type string), no date/date-time `format`, and a string `pattern`,
the sampler returns `"123"` exactly when the pattern contains the literal
two-character substring `\d` (so `\d{4}` yields `"123"` but `[0-9]+` yields
`"sample"`). -/
theorem c7_pattern_digits (clock : PyClock) (kvs : List (String × Json)) (p : String)
    (henum : lookupField kvs "enum" = none)
    (htype : (lookupField kvs "type").getD (.str "string") = .str "string")
    (hfd : ((lookupField kvs "format").getD (.str "")).isStrEq "date" = false)
    (hfdt : ((lookupField kvs "format").getD (.str "")).isStrEq "date-time" = false)
    (hpat : lookupField kvs "pattern" = some (.str p)) :
    sample_for_type clock (.obj kvs) =
      .ok (if hasSubseq "\\d".toList p.toList then .str "123" else .str "sample") := by
  have ht := obj_truthy_of_lookup hpat
  rcases hfmt : lookupField kvs "format" with _ | fv
  · simp [sample_for_type, ht, henum, htype, hfmt, hpat]
    split <;> rfl
  · rw [hfmt] at hfd hfdt
    cases fv <;> simp_all [sample_for_type, ht, henum, htype, hfmt, hpat] <;>
      split <;> rfl

/-- Witness for C7 (amended): `\d{4}` (which contains the substring `\d`)
yields `"123"`. -/
theorem c7_pattern_digits_witness :
    sample_for_type ⟨"20250101", "2025-01-01T00:00:00"⟩
      (.obj [("pattern", .str "\\d\x7b4\x7d")]) = .ok (.str "123") := by
  have h := c7_pattern_digits ⟨"20250101", "2025-01-01T00:00:00"⟩
    [("pattern", .str "\\d\x7b4\x7d")] "\\d\x7b4\x7d" rfl rfl rfl rfl rfl
  rw [h]
  rfl

/-- C1, counterexample.  The claim says the emitted `count` is absent/null
when `response.body` is not a sequence; but `extract_body_count` returns `0`
for such files (generate_filelist_json.py line 43), and the main loop maps a
successfully parsed file through it unchanged, so `count` is `0`, not null. -/
theorem c1_listing_count_counterexample :
    listing_count (some (.obj [("response", .obj [("body", .obj [("k", .int 1)])])])) =
      some 0 ∧
    listing_count (some (.obj [("response", .obj [("body", .obj [("k", .int 1)])])])) ≠
      none := by
  refine ⟨rfl, fun h => ?_⟩
  have h2 : (some 0 : Option Nat) = none := h
  simp at h2

/-- C1, amended.  For a parsed file whose `response.body` is a sequence the
emitted `count` is its length; for a parsed file whose `response.body` is
present but not a sequence the emitted `count` is `0` (not absent); `count`
is null exactly when the file's JSON could not be loaded. -/
theorem c1_listing_count (kvs rkvs : List (String × Json)) (b : Json)
    (hresp : lookupField kvs "response" = some (.obj rkvs))
    (hbody : lookupField rkvs "body" = some b) :
    (∀ elems : List Json, b = .arr elems →
      listing_count (some (.obj kvs)) = some elems.length) ∧
    ((∀ elems : List Json, b ≠ .arr elems) →
      listing_count (some (.obj kvs)) = some 0) ∧
    listing_count none = none := by
  refine ⟨fun elems he => ?_, fun hne => ?_, rfl⟩
  · subst he
    simp [listing_count, extract_body_count, hresp, hbody]
  · cases b with
    | arr elems => exact absurd rfl (hne elems)
    | null => simp [listing_count, extract_body_count, hresp, hbody]
    | bool b2 => simp [listing_count, extract_body_count, hresp, hbody]
    | int n => simp [listing_count, extract_body_count, hresp, hbody]
    | str s => simp [listing_count, extract_body_count, hresp, hbody]
    | obj fields => simp [listing_count, extract_body_count, hresp, hbody]

/-- Witness for C1 (amended): a five-element body yields `count = 5`, and an
object body yields `count = 0`. -/
theorem c1_listing_count_witness :
    listing_count (some (.obj [("response",
      .obj [("body", .arr [.int 1, .int 2, .int 3, .int 4, .int 5])])])) = some 5 ∧
    listing_count (some (.obj [("response", .obj [("body", .str "x")])])) = some 0 :=
  ⟨(c1_listing_count [("response", .obj [("body", .arr [.int 1, .int 2, .int 3,
        .int 4, .int 5])])] [("body", .arr [.int 1, .int 2, .int 3, .int 4, .int 5])]
      (.arr [.int 1, .int 2, .int 3, .int 4, .int 5]) rfl rfl).1 _ rfl,
   (c1_listing_count [("response", .obj [("body", .str "x")])] [("body", .str "x")]
      (.str "x") rfl rfl).2.1 (fun _ h => Json.noConfusion h)⟩

theorem PRes.ok_of_bind {α β : Type} {m : PRes α} {f : α → PRes β} {r : β}
    (h : m.bind f = .ok r) : ∃ a, m = .ok a ∧ f a = .ok r := by
  cases m with
  | ok a => exact ⟨a, rfl, h⟩
  | exn e => exact absurd h (by simp [PRes.bind])
  | diverge => exact absurd h (by simp [PRes.bind])

/-- C10.  A request descriptor whose method is `PATCH` makes `execute_request`
return `{'error': 'Unsupported method PATCH'}` without dispatching to any
network branch, even though `patch` is among the methods the operation
lister enumerates and the request builder upper-cases into descriptors. -/
theorem c10_patch_unsupported :
    (∀ req : Req, req.method = "PATCH" →
      execute_request_plan req =
        .noRequest (.obj [("error", .str "Unsupported method PATCH")])) ∧
    (list_operations (.obj [("paths", .obj [("/x",
        .obj [("patch", .obj [("operationId", .str "p1")])])])]) =
      .ok [("/x", "patch", .obj [("operationId", .str "p1")])]) ∧
    (∀ (clock : PyClock) (fuel : Nat) (base path : String) (operation swagger : Json)
        (r : Req),
      build_request_for_operation clock fuel base path "patch" operation swagger =
        .ok r → r.method = "PATCH") := by
  refine ⟨fun req h => ?_, rfl, fun clock fuel base path operation swagger r h => ?_⟩
  · simp [execute_request_plan, h]
  · simp only [build_request_for_operation, PRes.bind_eq, PRes.pure_eq] at h
    obtain ⟨defs, -, h⟩ := PRes.ok_of_bind h
    obtain ⟨params, -, h⟩ := PRes.ok_of_bind h
    split at h
    · obtain ⟨st, -, h⟩ := PRes.ok_of_bind h
      obtain ⟨fb, -, h⟩ := PRes.ok_of_bind h
      injection h with h2
      subst h2
      rfl
    · obtain ⟨st, -, h⟩ := PRes.ok_of_bind h
      obtain ⟨fb, -, h⟩ := PRes.ok_of_bind h
      injection h with h2
      subst h2
      rfl
    · obtain ⟨st, -, h⟩ := PRes.ok_of_bind h
      obtain ⟨fb, -, h⟩ := PRes.ok_of_bind h
      injection h with h2
      subst h2
      rfl
    · simp [PRes.bind] at h

/-- Witness for C10 at a concrete PATCH descriptor. -/
theorem c10_patch_unsupported_witness :
    execute_request_plan ⟨"https://h/x", "PATCH", [], [], .null⟩ =
      .noRequest (.obj [("error", .str "Unsupported method PATCH")]) :=
  c10_patch_unsupported.1 ⟨"https://h/x", "PATCH", [], [], .null⟩ rfl

/-- The amended claim's description of the sanitizer, written independently
as a one-pass state machine: each character in `[0-9A-Za-z._-]` is kept, and
each maximal run of characters outside it is replaced by a single underscore
(the flag records whether the previous character was part of such a run). -/
def collapseRuns (prevBad : Bool) : List Char → List Char
  | [] => []
  | c :: cs =>
      if allowedChar c then c :: collapseRuns false cs
      else if prevBad then collapseRuns true cs
      else '_' :: collapseRuns true cs

theorem collapseRuns_true_dropWhile (cs : List Char) :
    collapseRuns true cs = collapseRuns false (cs.dropWhile (fun d => !allowedChar d)) := by
  induction cs with
  | nil => rfl
  | cons c cs ih =>
      by_cases h : allowedChar c
      · rw [List.dropWhile_cons_of_neg (by simp [h])]
        simp [collapseRuns, h]
      · rw [List.dropWhile_cons_of_pos (by simp [h])]
        simp [collapseRuns, h, ih]

theorem subDisallowedRuns_eq_collapseRuns (cs : List Char) :
    subDisallowedRuns cs = collapseRuns false cs := by
  induction cs using subDisallowedRuns.induct with
  | case1 => simp [subDisallowedRuns, collapseRuns]
  | case2 c cs h ih => simp [subDisallowedRuns, collapseRuns, h, ih]
  | case3 c cs h ih =>
      simp [subDisallowedRuns, collapseRuns, h, collapseRuns_true_dropWhile, ih]

theorem sanitize_filename_eq_collapsed (s : String) :
    sanitize_filename s = (collapseRuns false s.toList).asString := by
  rw [sanitize_filename, subDisallowedRuns_eq_collapseRuns]

/-- C4, counterexample.  Under the claim as stated, each disallowed character
becomes its own underscore, so `/a//b` would sanitize to `_a__b` and the GET
file name would be `GET__a__b.json`; the regex class is quantified with `+`
(swagger_API.py line 132), so the run `//` collapses to a single underscore
and the actual name is `GET__a_b.json`. -/
theorem c4_filename_counterexample :
    endpoint_filename "get" "/a//b" = "GET__a_b.json" ∧
    endpoint_filename "get" "/a//b" ≠ "GET__a__b.json" := by
  have h : endpoint_filename "get" "/a//b" = "GET__a_b.json" := by
    rw [endpoint_filename, sanitize_filename_eq_collapsed]
    rfl
  exact ⟨h, by rw [h]; decide⟩

/-- C4, amended.  The output file name is the upper-cased method, an
underscore, and the path with each maximal run of characters outside
`[0-9A-Za-z._-]` replaced by a single `_` (so a run of N disallowed
characters yields one underscore, not N), followed by `.json`. -/
theorem c4_filename_collapsed_runs (method path : String) :
    endpoint_filename method path =
      pyUpper method ++ "_" ++ (collapseRuns false path.toList).asString ++ ".json" := by
  rw [endpoint_filename, sanitize_filename_eq_collapsed]

theorem infix_append_of_noRecreate {pat : List Char} :
    ∀ (repl X : List Char),
      (∀ s, s <:+ repl → s = [] ∨ ¬ s <+: pat) →
      ¬ pat <:+: repl →
      pat <:+: repl ++ X → pat <:+: X := by
  intro repl
  induction repl with
  | nil => intro X _ _ h; simpa using h
  | cons r rest ih =>
      intro X h1 h2 h3
      rw [List.cons_append, List.infix_cons_iff] at h3
      rcases h3 with h3 | h3
      · have h3' : pat <+: (r :: rest) ++ X := by simpa using h3
        by_cases hlen : pat.length ≤ (r :: rest).length
        · have h4 : pat <+: r :: rest :=
            List.prefix_of_prefix_length_le h3' (List.prefix_append _ _) hlen
          exact absurd h4.isInfix h2
        · have h4 : (r :: rest) <+: pat :=
            List.prefix_of_prefix_length_le (List.prefix_append _ _) h3'
              (Nat.le_of_lt (Nat.lt_of_not_le hlen))
          rcases h1 (r :: rest) (List.suffix_refl _) with h5 | h5
          · exact absurd h5 (List.cons_ne_nil _ _)
          · exact absurd h4 h5
      · refine ih X (fun s hs => h1 s (hs.trans (List.suffix_cons r rest))) ?_ h3
        intro hc
        exact h2 (List.infix_cons hc)

theorem prefix_pyReplaceAux {pat repl pat2 : List Char}
    (hpre : ∀ r, r <+: repl → r = [] ∨ ¬ r <:+ pat)
    (hninf : ¬ repl <:+: pat) :
    ∀ (fuel : Nat) (s e : List Char), e <:+ pat → e.length < pat.length →
      e <+: pyReplaceAux pat2 repl fuel s → e <+: s := by
  intro fuel
  induction fuel with
  | zero => intro s e _ _ h; simpa [pyReplaceAux] using h
  | succ fuel ih =>
      intro s e hesuf helen h
      cases s with
      | nil => simpa [pyReplaceAux] using h
      | cons c cs =>
          rw [pyReplaceAux] at h
          by_cases hcond : (!pat2.isEmpty && pat2.isPrefixOf (c :: cs)) = true
          · rw [if_pos hcond] at h
            rcases e with _ | ⟨e0, e1⟩
            · exact List.nil_prefix
            · exfalso
              by_cases hlen : (e0 :: e1).length ≤ repl.length
              · have h4 : (e0 :: e1) <+: repl :=
                  List.prefix_of_prefix_length_le h (List.prefix_append _ _) hlen
                rcases hpre _ h4 with h5 | h5
                · exact absurd h5 (List.cons_ne_nil _ _)
                · exact h5 hesuf
              · have h4 : repl <+: (e0 :: e1) :=
                  List.prefix_of_prefix_length_le (List.prefix_append _ _) h
                    (Nat.le_of_lt (Nat.lt_of_not_le hlen))
                exact hninf (h4.isInfix.trans hesuf.isInfix)
          · rw [if_neg hcond] at h
            rcases e with _ | ⟨e0, e1⟩
            · exact List.nil_prefix
            · rw [List.cons_prefix_cons] at h
              obtain ⟨rfl, h2⟩ := h
              refine List.cons_prefix_cons.mpr ⟨rfl, ?_⟩
              refine ih cs e1 ?_ ?_ h2
              · obtain ⟨A, hA⟩ := hesuf
                exact ⟨A ++ [e0], by simpa using hA⟩
              · simp only [List.length_cons] at helen
                omega

theorem not_infix_pyReplaceAux {pat repl : List Char}
    (hsuf : ∀ s, s <:+ repl → s = [] ∨ ¬ s <+: pat)
    (hpre : ∀ r, r <+: repl → r = [] ∨ ¬ r <:+ pat)
    (hrp : ¬ repl <:+: pat) (hpr : ¬ pat <:+: repl) :
    ∀ (fuel : Nat) (s : List Char), s.length ≤ fuel →
      ¬ pat <:+: pyReplaceAux pat repl fuel s := by
  have hp : pat ≠ [] := fun he => hpr (he ▸ List.nil_infix)
  intro fuel
  induction fuel with
  | zero =>
      intro s hlen h
      have hs : s = [] := List.length_eq_zero.mp (Nat.le_zero.mp hlen)
      subst hs
      rw [pyReplaceAux] at h
      exact hp (List.infix_nil.mp h)
  | succ fuel ih =>
      intro s hlen h
      cases s with
      | nil =>
          rw [pyReplaceAux] at h
          exact hp (List.infix_nil.mp h)
      | cons c cs =>
          rw [pyReplaceAux] at h
          by_cases hcond : (!pat.isEmpty && pat.isPrefixOf (c :: cs)) = true
          · rw [if_pos hcond] at h
            have h2 := infix_append_of_noRecreate repl _ hsuf hpr h
            refine ih _ ?_ h2
            have hpat1 : 1 ≤ pat.length := by
              cases pat with
              | nil => exact absurd rfl hp
              | cons a b => simp
            simp only [List.length_drop, List.length_cons] at *
            omega
          · rw [if_neg hcond] at h
            rw [List.infix_cons_iff] at h
            rcases h with h | h
            · obtain ⟨p0, pat1, rfl⟩ : ∃ p0 pat1, pat = p0 :: pat1 := by
                cases pat with
                | nil => exact absurd rfl hp
                | cons a b => exact ⟨a, b, rfl⟩
              rw [List.cons_prefix_cons] at h
              have h3 : pat1 <+: cs :=
                prefix_pyReplaceAux hpre hrp fuel cs pat1
                  (List.suffix_cons p0 pat1) (by simp) h.2
              have h4 : (p0 :: pat1).isPrefixOf (c :: cs) = true := by
                rw [List.isPrefixOf_iff_prefix, List.cons_prefix_cons]
                exact ⟨h.1, h3⟩
              simp [h4] at hcond
            · exact ih cs (by simpa using Nat.le_of_succ_le_succ (by simpa using hlen)) h

theorem not_infix_pyReplaceAux_of_not_infix {pat repl pat2 : List Char}
    (hsuf : ∀ s, s <:+ repl → s = [] ∨ ¬ s <+: pat)
    (hpre : ∀ r, r <+: repl → r = [] ∨ ¬ r <:+ pat)
    (hrp : ¬ repl <:+: pat) (hpr : ¬ pat <:+: repl) :
    ∀ (fuel : Nat) (s : List Char), ¬ pat <:+: s →
      ¬ pat <:+: pyReplaceAux pat2 repl fuel s := by
  have hp : pat ≠ [] := fun he => hpr (he ▸ List.nil_infix)
  intro fuel
  induction fuel with
  | zero => intro s hns h; rw [pyReplaceAux] at h; exact hns h
  | succ fuel ih =>
      intro s hns h
      cases s with
      | nil => rw [pyReplaceAux] at h; exact hns h
      | cons c cs =>
          rw [pyReplaceAux] at h
          by_cases hcond : (!pat2.isEmpty && pat2.isPrefixOf (c :: cs)) = true
          · rw [if_pos hcond] at h
            have h2 := infix_append_of_noRecreate repl _ hsuf hpr h
            refine ih _ ?_ h2
            intro h3
            exact hns (h3.trans (List.drop_suffix _ _).isInfix)
          · rw [if_neg hcond] at h
            rw [List.infix_cons_iff] at h
            rcases h with h | h
            · obtain ⟨p0, pat1, rfl⟩ : ∃ p0 pat1, pat = p0 :: pat1 := by
                cases pat with
                | nil => exact absurd rfl hp
                | cons a b => exact ⟨a, b, rfl⟩
              rw [List.cons_prefix_cons] at h
              have h3 : pat1 <+: cs :=
                prefix_pyReplaceAux hpre hrp fuel cs pat1
                  (List.suffix_cons p0 pat1) (by simp) h.2
              exact hns (List.IsPrefix.isInfix (List.cons_prefix_cons.mpr ⟨h.1, h3⟩))
            · refine ih cs ?_ h
              intro h3
              exact hns (List.infix_cons h3)

/-- After `s.replace(old, new)` no occurrence of `old` remains, provided the
replacement cannot keep or re-create the pattern (`noRecreate`). -/
theorem pyReplace_removes (s pat repl : String)
    (h : noRecreate pat.toList repl.toList) :
    ¬ pat.toList <:+: (pyReplace s pat repl).toList := by
  obtain ⟨h1, h2, h3, h4⟩ := h
  have h1' : ∀ x, x <:+ repl.toList → x = [] ∨ ¬ x <+: pat.toList :=
    fun x hx => h1 x ((List.mem_tails _ _).mpr hx)
  have h2' : ∀ x, x <+: repl.toList → x = [] ∨ ¬ x <:+ pat.toList :=
    fun x hx => h2 x ((List.mem_inits _ _).mpr hx)
  rw [pyReplace]
  exact not_infix_pyReplaceAux h1' h2' h3 h4 _ _ (Nat.le_refl _)

/-- `s.replace(old2, new)` cannot introduce an occurrence of a pattern `old`
that `s` does not contain, provided `noRecreate old new`. -/
theorem pyReplace_preserves (s pat2 pat repl : String)
    (h : noRecreate pat.toList repl.toList)
    (hs : ¬ pat.toList <:+: s.toList) :
    ¬ pat.toList <:+: (pyReplace s pat2 repl).toList := by
  obtain ⟨h1, h2, h3, h4⟩ := h
  have h1' : ∀ x, x <:+ repl.toList → x = [] ∨ ¬ x <+: pat.toList :=
    fun x hx => h1 x ((List.mem_tails _ _).mpr hx)
  have h2' : ∀ x, x <+: repl.toList → x = [] ∨ ¬ x <:+ pat.toList :=
    fun x hx => h2 x ((List.mem_inits _ _).mpr hx)
  rw [pyReplace]
  exact not_infix_pyReplaceAux_of_not_infix h1' h2' h3 h4 _ _ hs

/-- A successful `apply_param` step either leaves the url unchanged or, for a
`path` parameter, rewrites it by one `str.replace` of a brace-wrapped name. -/
theorem apply_param_url {st : BuildState} {pin name sample : Json}
    {st' : BuildState} (h : apply_param st pin name sample = .ok st') :
    st'.url = st.url ∨
      (pin.isStrEq "path" = true ∧ ∃ nm2 : String,
        st'.url = pyReplace st.url ("\x7b" ++ nm2 ++ "\x7d") (pyStr sample)) := by
  rw [apply_param.eq_def] at h
  by_cases hpath : pin.isStrEq "path" = true
  · rw [if_pos hpath] at h
    cases name with
    | str nm2 =>
        refine Or.inr ⟨hpath, nm2, ?_⟩
        injection h with h'
        rw [← h']
    | null => exact PRes.noConfusion h
    | bool b => exact PRes.noConfusion h
    | int n => exact PRes.noConfusion h
    | arr l => exact PRes.noConfusion h
    | obj kvs => exact PRes.noConfusion h
  · rw [if_neg hpath] at h
    refine Or.inl ?_
    by_cases hq : pin.isStrEq "query" = true
    · rw [if_pos hq] at h
      cases name with
      | str nm2 => injection h with h'; rw [← h']
      | null => exact PRes.noConfusion h
      | bool b => exact PRes.noConfusion h
      | int n => exact PRes.noConfusion h
      | arr l => exact PRes.noConfusion h
      | obj kvs => exact PRes.noConfusion h
    · rw [if_neg hq] at h
      by_cases hh : pin.isStrEq "header" = true
      · rw [if_pos hh] at h
        cases name with
        | str nm2 => injection h with h'; rw [← h']
        | null => exact PRes.noConfusion h
        | bool b => exact PRes.noConfusion h
        | int n => exact PRes.noConfusion h
        | arr l => exact PRes.noConfusion h
        | obj kvs => exact PRes.noConfusion h
      · rw [if_neg hh] at h
        by_cases hb : pin.isStrEq "body" = true
        · rw [if_pos hb] at h
          injection h with h'
          rw [← h']
        · rw [if_neg hb] at h
          by_cases hf : pin.isStrEq "formData" = true
          · rw [if_pos hf] at h
            split at h
            · split at h
              · injection h with h'; rw [← h']
              · exact PRes.noConfusion h
            · split at h
              · injection h with h'; rw [← h']
              · exact PRes.noConfusion h
            · exact PRes.noConfusion h
          · rw [if_neg hf] at h
            injection h with h'
            rw [← h']

/-- Once the running url is free of the placeholder and every `path`
parameter's stringified sample satisfies `noRecreate`, the parameter loop
keeps the url free of the placeholder. -/
theorem build_params_preserves (clock : PyClock) (fuel : Nat) (defs : Json)
    (PAT : String) :
    ∀ (ps : List Json) (st st2 : BuildState),
      (∀ q ∈ ps, ∀ i v, pyGet q "in" = .ok i → i.isStrEq "path" = true →
        param_sample clock fuel defs q = .ok v →
        noRecreate PAT.toList (pyStr v).toList) →
      ¬ PAT.toList <:+: st.url.toList →
      build_params clock fuel defs st ps = .ok st2 →
      ¬ PAT.toList <:+: st2.url.toList := by
  intro ps
  induction ps with
  | nil =>
      intro st st2 _ hst h
      rw [build_params] at h
      injection h with h'
      rw [← h']
      exact hst
  | cons q rest ih =>
      intro st st2 hsafe hst h
      rw [build_params] at h
      obtain ⟨pin, hpin, h1⟩ := PRes.ok_of_bind h
      obtain ⟨name, hnme, h2⟩ := PRes.ok_of_bind h1
      obtain ⟨sample, hsample, h3⟩ := PRes.ok_of_bind h2
      obtain ⟨st', happ, h4⟩ := PRes.ok_of_bind h3
      clear h h1 h2 h3
      refine ih st' st2 (fun q2 hq2 => hsafe q2 (List.mem_cons_of_mem _ hq2)) ?_ h4
      rcases apply_param_url happ with hurl | ⟨hpath, nm2, hurl⟩
      · rw [hurl]; exact hst
      · rw [hurl]
        exact pyReplace_preserves _ _ _ _
          (hsafe q (List.mem_cons_self _ _) pin sample hpin hpath hsample) hst

/-- If the parameter list contains a `path` parameter named `nm` and every
`path` parameter's stringified sample satisfies `noRecreate` against the
placeholder, the loop's final url is free of the placeholder. -/
theorem build_params_removes (clock : PyClock) (fuel : Nat) (defs : Json)
    (nm : String) (pkvs : List (String × Json))
    (hin : lookupField pkvs "in" = some (.str "path"))
    (hname : lookupField pkvs "name" = some (.str nm)) :
    ∀ (ps : List Json) (st st2 : BuildState),
      Json.obj pkvs ∈ ps →
      (∀ q ∈ ps, ∀ i v, pyGet q "in" = .ok i → i.isStrEq "path" = true →
        param_sample clock fuel defs q = .ok v →
        noRecreate ("\x7b" ++ nm ++ "\x7d").toList (pyStr v).toList) →
      build_params clock fuel defs st ps = .ok st2 →
      ¬ ("\x7b" ++ nm ++ "\x7d").toList <:+: st2.url.toList := by
  intro ps
  induction ps with
  | nil =>
      intro st st2 hmem
      exact absurd hmem (List.not_mem_nil _)
  | cons q rest ih =>
      intro st st2 hmem hsafe h
      rw [build_params] at h
      obtain ⟨pin, hpin, h1⟩ := PRes.ok_of_bind h
      obtain ⟨name, hnme, h2⟩ := PRes.ok_of_bind h1
      obtain ⟨sample, hsample, h3⟩ := PRes.ok_of_bind h2
      obtain ⟨st', happ, h4⟩ := PRes.ok_of_bind h3
      clear h h1 h2 h3
      rcases List.mem_cons.mp hmem with heq | hmem2
      · subst heq
        have hpin0 : pyGet (Json.obj pkvs) "in" = .ok (.str "path") := by
          simp [pyGet, hin]
        rw [hpin0] at hpin
        injection hpin with hpin1
        subst hpin1
        have hnme0 : pyGet (Json.obj pkvs) "name" = .ok (.str nm) := by
          simp [pyGet, hname]
        rw [hnme0] at hnme
        injection hnme with hnme1
        subst hnme1
        have happ0 : apply_param st (.str "path") (.str nm) sample =
            .ok { st with
              url := pyReplace st.url ("\x7b" ++ nm ++ "\x7d") (pyStr sample) } := rfl
        rw [happ0] at happ
        injection happ with happ1
        have hnoocc :
            ¬ ("\x7b" ++ nm ++ "\x7d").toList <:+: st'.url.toList := by
          rw [← happ1]
          exact pyReplace_removes _ _ _
            (hsafe (Json.obj pkvs) (List.mem_cons_self _ _) (.str "path") sample
              hpin0 (by decide) hsample)
        exact build_params_preserves clock fuel defs _ rest st' st2
          (fun q2 hq2 => hsafe q2 (List.mem_cons_of_mem _ hq2)) hnoocc h4
      · exact ih st' st2 hmem2
          (fun q2 hq2 => hsafe q2 (List.mem_cons_of_mem _ hq2)) h4

/-- C8, counterexample to the original claim.  An operation whose path
template contains `\x7bp\x7d` and whose parameters declare the path parameter
`p`, sampled (via its enum) as the string `"\x7bp\x7d"`, builds successfully —
yet the built URL still contains the `\x7bp\x7d` placeholder: `str.replace`
substituted every occurrence, but the stringified sample re-created one. -/
theorem c8_path_counterexample :
    build_request_for_operation ⟨"20250101", "2025-01-01T00:00:00"⟩ 1
      "https://api.example.com/v1" "/stock/\x7bp\x7d" "get"
      (.obj [("parameters", .arr [.obj [("name", .str "p"), ("in", .str "path"),
        ("enum", .arr [.str "\x7bp\x7d"])]])]) (.obj []) =
      .ok ⟨"https://api.example.com/v1/stock/\x7bp\x7d", "GET",
        [("Accept", .str "application/json")], [], .null⟩ ∧
    "\x7bp\x7d".toList <:+:
      "https://api.example.com/v1/stock/\x7bp\x7d".toList :=
  ⟨rfl, by decide⟩

/-- C8, amended.  For every successfully built operation whose parameters
declare a path parameter `nm`, the builder substitutes every occurrence of
the brace-wrapped name by `str.replace` at that parameter's turn, and the
final URL contains no remaining placeholder provided no path parameter's
stringified sample can keep or re-create it (`noRecreate`: no non-empty
prefix/suffix of the sample overlaps the placeholder's boundaries and
neither contains the other — satisfied in particular by the default sample
`"sample"`, and by numeric, boolean and date samples, for any name). -/
theorem c8_path_no_placeholder (clock : PyClock) (fuel : Nat)
    (base path method : String) (opkvs : List (String × Json))
    (swagger defs : Json) (ps : List Json) (pkvs : List (String × Json))
    (nm : String) (req : Req)
    (hdefs : resolve_definitions swagger = .ok defs)
    (hparams : lookupField opkvs "parameters" = some (.arr ps))
    (hmem : Json.obj pkvs ∈ ps)
    (hin : lookupField pkvs "in" = some (.str "path"))
    (hname : lookupField pkvs "name" = some (.str nm))
    (hsafe : ∀ q ∈ ps, ∀ i v, pyGet q "in" = .ok i → i.isStrEq "path" = true →
      param_sample clock fuel defs q = .ok v →
      noRecreate ("\x7b" ++ nm ++ "\x7d").toList (pyStr v).toList)
    (hbuild : build_request_for_operation clock fuel base path method
      (.obj opkvs) swagger = .ok req) :
    ¬ ("\x7b" ++ nm ++ "\x7d").toList <:+: req.url.toList := by
  rw [build_request_for_operation.eq_def] at hbuild
  obtain ⟨defs2, hdefs2, hb1⟩ := PRes.ok_of_bind hbuild
  rw [hdefs] at hdefs2
  injection hdefs2 with hdefs3
  subst hdefs3
  obtain ⟨parameters, hpar, hb2⟩ := PRes.ok_of_bind hb1
  have hpar2 : parameters = .arr ps := by
    simp [pyGetD, hparams] at hpar
    exact hpar.symm
  subst hpar2
  obtain ⟨st, hst, hb3⟩ := PRes.ok_of_bind hb2
  obtain ⟨fb, hfb, hb4⟩ := PRes.ok_of_bind hb3
  clear hbuild hb1 hb2 hb3
  have hret : PRes.ok (⟨st.url, pyUpper method, st.headers, st.params, fb⟩ : Req)
      = .ok req := hb4
  injection hret with hret1
  rw [← hret1]
  exact build_params_removes clock fuel defs nm pkvs hin hname ps _ st
    hmem hsafe hst

/-- Witness for C8: the spec's concrete scenario extended with an extra
query parameter and a second path parameter that falls back to the default
sample — template `/stock/\x7bcode\x7d/\x7bfmt\x7d` with path parameter
`code` sampled as `123`, query parameter `page` (default sample `"sample"`),
and path parameter `fmt` (default sample `"sample"`, which shares the
character `e` with `\x7bcode\x7d` yet satisfies `noRecreate`): the URL
contains `/stock/123` and no remaining `\x7bcode\x7d` placeholder. -/
theorem c8_path_no_placeholder_witness :
    build_request_for_operation ⟨"20250101", "2025-01-01T00:00:00"⟩ 1
      "https://api.example.com/v1" "/stock/\x7bcode\x7d/\x7bfmt\x7d" "get"
      (.obj [("parameters", .arr
        [.obj [("name", .str "code"), ("in", .str "path"),
          ("enum", .arr [.int 123])],
         .obj [("name", .str "page"), ("in", .str "query")],
         .obj [("name", .str "fmt"), ("in", .str "path")]])]) (.obj []) =
      .ok ⟨"https://api.example.com/v1/stock/123/sample", "GET",
        [("Accept", .str "application/json")], [("page", .str "sample")],
        .null⟩ ∧
    ¬ ("\x7b" ++ "code" ++ "\x7d").toList <:+:
        "https://api.example.com/v1/stock/123/sample".toList ∧
    "/stock/123".toList <:+:
      "https://api.example.com/v1/stock/123/sample".toList := by
  have hsafe : ∀ q ∈ [Json.obj [("name", .str "code"), ("in", .str "path"),
        ("enum", .arr [.int 123])],
      Json.obj [("name", .str "page"), ("in", .str "query")],
      Json.obj [("name", .str "fmt"), ("in", .str "path")]],
      ∀ i v, pyGet q "in" = .ok i → i.isStrEq "path" = true →
        param_sample ⟨"20250101", "2025-01-01T00:00:00"⟩ 1 (.obj []) q = .ok v →
        noRecreate ("\x7b" ++ "code" ++ "\x7d").toList (pyStr v).toList := by
    intro q hq i v hi hpath hv
    rcases List.mem_cons.mp hq with rfl | hq2
    · have hi' : (PRes.ok (Json.str "path") : PRes Json) = .ok i := hi
      injection hi' with hi2
      subst hi2
      have hv' : (PRes.ok (Json.int 123) : PRes Json) = .ok v := hv
      injection hv' with hv2
      subst hv2
      decide
    rcases List.mem_cons.mp hq2 with rfl | hq3
    · have hi' : (PRes.ok (Json.str "query") : PRes Json) = .ok i := hi
      injection hi' with hi2
      subst hi2
      exact absurd hpath (by decide)
    rcases List.mem_cons.mp hq3 with rfl | hq4
    · have hi' : (PRes.ok (Json.str "path") : PRes Json) = .ok i := hi
      injection hi' with hi2
      subst hi2
      have hv' : (PRes.ok (Json.str "sample") : PRes Json) = .ok v := hv
      injection hv' with hv2
      subst hv2
      decide
    exact absurd hq4 (List.not_mem_nil _)
  refine ⟨rfl, ?_, by decide⟩
  exact c8_path_no_placeholder ⟨"20250101", "2025-01-01T00:00:00"⟩ 1
    "https://api.example.com/v1" "/stock/\x7bcode\x7d/\x7bfmt\x7d" "get"
    [("parameters", .arr
      [.obj [("name", .str "code"), ("in", .str "path"),
        ("enum", .arr [.int 123])],
       .obj [("name", .str "page"), ("in", .str "query")],
       .obj [("name", .str "fmt"), ("in", .str "path")]])]
    (.obj []) (.obj [])
    [.obj [("name", .str "code"), ("in", .str "path"),
       ("enum", .arr [.int 123])],
     .obj [("name", .str "page"), ("in", .str "query")],
     .obj [("name", .str "fmt"), ("in", .str "path")]]
    [("name", .str "code"), ("in", .str "path"), ("enum", .arr [.int 123])]
    "code"
    ⟨"https://api.example.com/v1/stock/123/sample", "GET",
      [("Accept", .str "application/json")], [("page", .str "sample")], .null⟩
    rfl rfl (List.mem_cons_self _ _) rfl rfl hsafe rfl

theorem sizeOf_lookupField_lt {kvs : List (String × Json)} {key : String} {v : Json}
    (h : lookupField kvs key = some v) : sizeOf v < sizeOf (Json.obj kvs) := by
  induction kvs with
  | nil => simp [lookupField] at h
  | cons kv rest ih =>
      obtain ⟨k1, v1⟩ := kv
      rw [lookupField] at h
      by_cases hk : (k1 == key) = true
      · rw [if_pos hk] at h
        cases h
        simp
        omega
      · rw [if_neg hk] at h
        have := ih h
        simp at this ⊢
        omega

theorem sizeOf_getD_emptyObj_lt (kvs : List (String × Json)) (key : String)
    (hne : kvs ≠ []) :
    sizeOf ((lookupField kvs key).getD (Json.obj [])) < sizeOf (Json.obj kvs) := by
  cases hlk : lookupField kvs key with
  | some v => simpa using sizeOf_lookupField_lt hlk
  | none =>
      cases kvs with
      | nil => exact absurd rfl hne
      | cons kv rest =>
          obtain ⟨k1, v1⟩ := kv
          simp
          omega

theorem sizeOf_val_lt_obj {pkvs : List (String × Json)} {k : String} {v : Json}
    (h : (k, v) ∈ pkvs) : sizeOf v < sizeOf (Json.obj pkvs) := by
  have h1 : sizeOf (k, v) < sizeOf pkvs := List.sizeOf_lt_of_mem h
  simp at h1 ⊢
  omega

mutual

/-- The definition-table entries that one traversal step of the synthesizer
can resolve a `$ref` into, collected along exactly the branches
`make_sample_body_from_schema` recurses on (resolved references, declared
properties, array items). -/
def refsOf : Json → List String
  | .obj kvs =>
      if hne : kvs.isEmpty then []
      else
        match lookupField kvs "$ref" with
        | some (.str r) =>
            match refCapture r with
            | some key => [key]
            | none => []
        | some _ => []
        | none =>
          let t0 := (lookupField kvs "type").getD .null
          let t := if t0.truthy = false && (lookupField kvs "properties").isSome
                   then Json.str "object" else t0
          if t.isStrEq "object" then
            refsOfProps ((lookupField kvs "properties").getD (.obj []))
          else if t.isStrEq "array" then
            refsOf ((lookupField kvs "items").getD (.obj []))
          else []
  | _ => []
termination_by j => sizeOf j
decreasing_by
  · exact sizeOf_getD_emptyObj_lt fields "properties" (by simpa using hne)
  · exact sizeOf_getD_emptyObj_lt fields "items" (by simpa using hne)

/-- `refsOf` of a `properties` value: the fields of a dict, nothing
otherwise (a non-dict `properties` raises before any recursion). -/
def refsOfProps : Json → List String
  | .obj pkvs => refsOfFields pkvs
  | _ => []
termination_by p => sizeOf p

/-- `refsOf` over the values of a property list. -/
def refsOfFields : List (String × Json) → List String
  | [] => []
  | (_, v) :: rest => refsOf v ++ refsOfFields rest
termination_by ps => sizeOf ps
decreasing_by
  all_goals first | (simp; omega) | simp | omega

end

/-- `definitions.get(key) or definitions.get(key.replace('"', ''))` as a pure
value (`null` when the table is not a dict or both lookups miss). -/
def resolveDef (defs : Json) (key : String) : Json :=
  match defs with
  | .obj dkvs =>
      pyOr ((lookupField dkvs key).getD .null)
        ((lookupField dkvs (stripQuotes key)).getD .null)
  | _ => .null

/-- A strict upper bound for `rank` over a key list (`0` on the empty list). -/
def supRank (rank : String → Nat) : List String → Nat
  | [] => 0
  | k :: rest => max (rank k + 1) (supRank rank rest)

theorem mapFieldsM_congr {g1 g2 : Json → PRes Json} :
    ∀ ps : List (String × Json), mapFieldsM g1 ps ≠ .diverge →
      (∀ v, g1 v ≠ .diverge → g2 v = g1 v) →
      mapFieldsM g2 ps = mapFieldsM g1 ps := by
  intro ps
  induction ps with
  | nil => intro _ _; rfl
  | cons kv rest ih =>
      obtain ⟨k, v⟩ := kv
      intro hne h
      rw [mapFieldsM, mapFieldsM]
      cases hg : g1 v with
      | ok jv =>
          rw [h v (by simp [hg])]
          rw [hg]
          cases hrest : mapFieldsM g1 rest with
          | ok tail => rw [ih (by simp [hrest]) h, hrest]
          | exn e => rw [ih (by simp [hrest]) h, hrest]
          | diverge =>
              exfalso
              apply hne
              rw [mapFieldsM, hg, hrest]
      | exn e => rw [h v (by simp [hg]), hg]
      | diverge =>
          exfalso
          apply hne
          rw [mapFieldsM, hg]

theorem mapFieldsM_ne_diverge {g : Json → PRes Json} :
    ∀ ps : List (String × Json), (∀ kv ∈ ps, g kv.2 ≠ .diverge) →
      mapFieldsM g ps ≠ .diverge := by
  intro ps
  induction ps with
  | nil => intro _ h; rw [mapFieldsM] at h; cases h
  | cons kv rest ih =>
      obtain ⟨k, v⟩ := kv
      intro h hdiv
      rw [mapFieldsM] at hdiv
      cases hg : g v with
      | ok jv =>
          rw [hg] at hdiv
          cases hrest : mapFieldsM g rest with
          | ok tail => rw [hrest] at hdiv; cases hdiv
          | exn e => rw [hrest] at hdiv; cases hdiv
          | diverge =>
              exact ih (fun kv2 hkv2 => h kv2 (List.mem_cons_of_mem _ hkv2)) hrest
      | exn e => rw [hg] at hdiv; cases hdiv
      | diverge => exact h (k, v) (List.mem_cons_self _ _) hg

theorem make_sample_step_congr (clock : PyClock)
    (rec1 rec2 : Json → Json → PRes Json) (schema defs : Json)
    (hne : make_sample_step clock rec1 schema defs ≠ .diverge)
    (hrec : ∀ s2, rec1 s2 defs ≠ .diverge → rec2 s2 defs = rec1 s2 defs) :
    make_sample_step clock rec2 schema defs = make_sample_step clock rec1 schema defs := by
  by_cases htr : schema.truthy = false
  · simp [make_sample_step, htr]
  · cases schema with
    | null => exact absurd rfl htr
    | bool b => rfl
    | int n => rfl
    | str s => rfl
    | arr elems => rfl
    | obj kvs =>
      have hkvs : kvs.isEmpty = false := by
        revert htr
        simp [Json.truthy]
      cases href : lookupField kvs "$ref" with
      | some refv =>
        cases refv with
        | str r =>
          cases hcap : refCapture r with
          | some key =>
            by_cases hdt : defs.truthy = true
            · cases hget : pyGet defs key with
              | ok v1 =>
                cases hget2 : (if v1.truthy then (.ok v1 : PRes Json)
                    else pyGet defs (stripQuotes key)) with
                | ok sub =>
                  by_cases hst : sub.truthy = true
                  · have hne2 : rec1 sub defs ≠ .diverge := by
                      intro hd
                      apply hne
                      simp [make_sample_step, hkvs, href, hcap, hdt, hget, hget2, hst, hd]
                    simp [make_sample_step, hkvs, href, hcap, hdt, hget, hget2, hst,
                      hrec sub hne2]
                  · simp [make_sample_step, hkvs, href, hcap, hdt, hget, hget2, hst]
                | exn e => simp [make_sample_step, hkvs, href, hcap, hdt, hget, hget2]
                | diverge => simp [make_sample_step, hkvs, href, hcap, hdt, hget, hget2]
              | exn e => simp [make_sample_step, hkvs, href, hcap, hdt, hget]
              | diverge => simp [make_sample_step, hkvs, href, hcap, hdt, hget]
            · simp [make_sample_step, hkvs, href, hcap, hdt]
          | none => simp [make_sample_step, hkvs, href, hcap]
        | null => simp [make_sample_step, hkvs, href]
        | bool b => simp [make_sample_step, hkvs, href]
        | int n => simp [make_sample_step, hkvs, href]
        | arr elems => simp [make_sample_step, hkvs, href]
        | obj fields2 => simp [make_sample_step, hkvs, href]
      | none =>
        by_cases hobj :
            ((if ((lookupField kvs "type").getD Json.null).truthy = false ∧
                  (lookupField kvs "properties").isSome = true
              then Json.str "object"
              else (lookupField kvs "type").getD Json.null).isStrEq "object") = true
        · cases hprops : (lookupField kvs "properties").getD (.obj []) with
          | obj pkvs =>
              have hmne : mapFieldsM (fun v => rec1 v defs) pkvs ≠ .diverge := by
                intro hd
                apply hne
                simp [make_sample_step, hkvs, href, hobj, hprops, hd]
              simp [make_sample_step, hkvs, href, hobj, hprops,
                mapFieldsM_congr pkvs hmne (fun v hv => hrec v hv)]
          | null => simp [make_sample_step, hkvs, href, hobj, hprops]
          | bool b => simp [make_sample_step, hkvs, href, hobj, hprops]
          | int n => simp [make_sample_step, hkvs, href, hobj, hprops]
          | str s => simp [make_sample_step, hkvs, href, hobj, hprops]
          | arr elems => simp [make_sample_step, hkvs, href, hobj, hprops]
        · by_cases harr :
              ((if ((lookupField kvs "type").getD Json.null).truthy = false ∧
                    (lookupField kvs "properties").isSome = true
                then Json.str "object"
                else (lookupField kvs "type").getD Json.null).isStrEq "array") = true
          · have hine : rec1 ((lookupField kvs "items").getD (.obj [])) defs ≠
                .diverge := by
              intro hd
              apply hne
              simp [make_sample_step, hkvs, href, hobj, harr, hd]
            simp [make_sample_step, hkvs, href, hobj, harr, hrec _ hine]
          · simp [make_sample_step, hkvs, href, hobj, harr]

theorem make_sample_mono (clock : PyClock) :
    ∀ fuel fuel2 (schema defs : Json), fuel ≤ fuel2 →
      make_sample_body_from_schema clock fuel schema defs ≠ .diverge →
      make_sample_body_from_schema clock fuel2 schema defs =
        make_sample_body_from_schema clock fuel schema defs := by
  intro fuel
  induction fuel with
  | zero =>
      intro fuel2 schema defs _ hne
      exact absurd rfl hne
  | succ fuel ih =>
      intro fuel2 schema defs hle hne
      obtain ⟨fuel2p, rfl⟩ : ∃ n, fuel2 = n + 1 := ⟨fuel2 - 1, by omega⟩
      rw [make_sample_body_from_schema] at hne ⊢
      conv_rhs => rw [make_sample_body_from_schema]
      exact make_sample_step_congr clock _ _ schema defs hne
        (fun s2 h2 => ih fuel2p s2 defs (by omega) h2)

theorem exists_shared_fuel (clock : PyClock) (defs : Json) :
    ∀ vals : List Json,
      (∀ v ∈ vals, ∃ f, make_sample_body_from_schema clock f v defs ≠ .diverge) →
      ∃ F, ∀ v ∈ vals, make_sample_body_from_schema clock F v defs ≠ .diverge := by
  intro vals
  induction vals with
  | nil => intro _; exact ⟨1, by simp⟩
  | cons v rest ih =>
      intro h
      obtain ⟨fv, hfv⟩ := h v (List.mem_cons_self _ _)
      obtain ⟨F, hF⟩ := ih (fun v2 hv2 => h v2 (List.mem_cons_of_mem _ hv2))
      refine ⟨max fv F, fun v2 hv2 => ?_⟩
      rcases List.mem_cons.mp hv2 with rfl | hv2
      · rw [make_sample_mono clock fv (max fv F) v2 defs (Nat.le_max_left _ _) hfv]
        exact hfv
      · rw [make_sample_mono clock F (max fv F) v2 defs (Nat.le_max_right _ _) (hF v2 hv2)]
        exact hF v2 hv2

theorem rank_lt_supRank (rank : String → Nat) {k : String} :
    ∀ keys : List String, k ∈ keys → rank k < supRank rank keys := by
  intro keys
  induction keys with
  | nil => intro h; cases h
  | cons k2 rest ih =>
      intro h
      rcases List.mem_cons.mp h with rfl | h
      · exact Nat.lt_of_lt_of_le (Nat.lt_succ_self _)
          (Nat.le_max_left _ _)
      · exact Nat.lt_of_lt_of_le (ih h) (Nat.le_max_right _ _)

theorem supRank_le_iff {rank : String → Nat} {n : Nat} :
    ∀ keys : List String, supRank rank keys ≤ n ↔ ∀ k ∈ keys, rank k < n := by
  intro keys
  induction keys with
  | nil => simp [supRank]
  | cons k2 rest ih =>
      simp only [supRank, Nat.max_le, ih, List.mem_cons]
      constructor
      · rintro ⟨h1, h2⟩ k (rfl | hk)
        · omega
        · exact h2 k hk
      · intro h
        exact ⟨by have := h k2 (Or.inl rfl); omega,
          fun k hk => h k (Or.inr hk)⟩

theorem mem_refsOfFields {k2 : String} {k : String} {v : Json} :
    ∀ pkvs : List (String × Json), (k, v) ∈ pkvs → k2 ∈ refsOf v →
      k2 ∈ refsOfFields pkvs := by
  intro pkvs
  induction pkvs with
  | nil => intro h; cases h
  | cons kv rest ih =>
      obtain ⟨k1, v1⟩ := kv
      intro hm h
      rw [refsOfFields]
      rcases List.mem_cons.mp hm with heq | hm2
      · injection heq with h1 h2
        subst h1
        subst h2
        exact List.mem_append_left _ h
      · exact List.mem_append_right _ (ih hm2 h)

theorem exists_fuel_of_rank (clock : PyClock) (defs : Json) (rank : String → Nat)
    (hacc : ∀ key k2, k2 ∈ refsOf (resolveDef defs key) → rank k2 < rank key) :
    ∀ (n m : Nat) (schema : Json), supRank rank (refsOf schema) ≤ n →
      sizeOf schema ≤ m →
      ∃ f, make_sample_body_from_schema clock f schema defs ≠ .diverge := by
  intro n
  induction n using Nat.strong_induction_on with
  | _ n ihn =>
  intro m
  induction m using Nat.strong_induction_on with
  | _ m ihm =>
  intro schema hrank hsize
  by_cases htr : schema.truthy = false
  · exact ⟨1, by simp [make_sample_body_from_schema, make_sample_step, htr]⟩
  · cases schema with
    | null => exact absurd rfl htr
    | bool b => exact ⟨1, by simp [make_sample_body_from_schema, make_sample_step, htr]⟩
    | int n2 => exact ⟨1, by simp [make_sample_body_from_schema, make_sample_step, htr]⟩
    | str s => exact ⟨1, by simp [make_sample_body_from_schema, make_sample_step, htr]⟩
    | arr elems =>
        exact ⟨1, by simp [make_sample_body_from_schema, make_sample_step, htr]⟩
    | obj kvs =>
      have hkvs : kvs.isEmpty = false := by
        revert htr
        simp [Json.truthy]
      have hkvsne : kvs ≠ [] := by simpa using hkvs
      cases href : lookupField kvs "$ref" with
      | some refv =>
        cases refv with
        | str r =>
          cases hcap : refCapture r with
          | some key =>
            by_cases hdt : defs.truthy = true
            · cases hget : pyGet defs key with
              | ok v1 =>
                cases hget2 : (if v1.truthy then (.ok v1 : PRes Json)
                    else pyGet defs (stripQuotes key)) with
                | ok sub =>
                  by_cases hst : sub.truthy = true
                  · obtain ⟨dkvs, rfl⟩ : ∃ dkvs, defs = .obj dkvs := by
                      cases defs with
                      | obj dkvs => exact ⟨dkvs, rfl⟩
                      | null => simp [pyGet] at hget
                      | bool b => simp [pyGet] at hget
                      | int n2 => simp [pyGet] at hget
                      | str s => simp [pyGet] at hget
                      | arr elems => simp [pyGet] at hget
                    simp only [pyGet, PRes.ok.injEq] at hget
                    have hdt2 : dkvs.isEmpty = false := by
                      simpa [Json.truthy] using hdt
                    have hscrut : (if v1.truthy = true then (.ok v1 : PRes Json)
                        else .ok ((lookupField dkvs (stripQuotes key)).getD .null)) =
                        .ok sub := by
                      rw [← hget2]
                      simp [pyGet]
                    have hsub : sub = resolveDef (.obj dkvs) key := by
                      by_cases hv1 : v1.truthy = true
                      · rw [if_pos hv1] at hscrut
                        injection hscrut with h6
                        rw [← h6]
                        simp [resolveDef, pyOr, hget, hv1]
                      · rw [if_neg hv1] at hscrut
                        injection hscrut with h6
                        rw [← h6]
                        simp [resolveDef, pyOr, hget, hv1]
                    have hrefs : refsOf (Json.obj kvs) = [key] := by
                      simp [refsOf, hkvs, href, hcap]
                    have hkey_rank : rank key < n := by
                      have h1 : rank key < supRank rank (refsOf (Json.obj kvs)) :=
                        rank_lt_supRank rank _ (by rw [hrefs]; exact List.mem_singleton.mpr rfl)
                      omega
                    have hsubrank : supRank rank (refsOf sub) ≤ rank key := by
                      rw [supRank_le_iff]
                      intro k2 hk2
                      exact hacc key k2 (by rw [← hsub]; exact hk2)
                    obtain ⟨f, hf⟩ := ihn (rank key) hkey_rank (sizeOf sub) sub
                      hsubrank (Nat.le_refl _)
                    refine ⟨f + 1, ?_⟩
                    rw [make_sample_body_from_schema]
                    simpa [make_sample_step, hkvs, href, hcap, hdt2, pyGet, hget,
                      hscrut, hst] using hf
                  · refine ⟨1, ?_⟩
                    rw [make_sample_body_from_schema]
                    simp [make_sample_step, hkvs, href, hcap, hdt, hget, hget2, hst]
                | exn e =>
                    refine ⟨1, ?_⟩
                    rw [make_sample_body_from_schema]
                    simp [make_sample_step, hkvs, href, hcap, hdt, hget, hget2]
                | diverge =>
                    exfalso
                    by_cases hv1 : v1.truthy = true
                    · rw [if_pos hv1] at hget2
                      cases hget2
                    · rw [if_neg hv1] at hget2
                      cases defs with
                      | obj dkvs => simp [pyGet] at hget2
                      | null => simp [pyGet] at hget
                      | bool b => simp [pyGet] at hget
                      | int n2 => simp [pyGet] at hget
                      | str s => simp [pyGet] at hget
                      | arr elems => simp [pyGet] at hget
              | exn e =>
                  refine ⟨1, ?_⟩
                  rw [make_sample_body_from_schema]
                  simp [make_sample_step, hkvs, href, hcap, hdt, hget]
              | diverge =>
                  exfalso
                  cases defs with
                  | obj dkvs => simp [pyGet] at hget
                  | null => simp [pyGet] at hget
                  | bool b => simp [pyGet] at hget
                  | int n2 => simp [pyGet] at hget
                  | str s => simp [pyGet] at hget
                  | arr elems => simp [pyGet] at hget
            · refine ⟨1, ?_⟩
              rw [make_sample_body_from_schema]
              simp [make_sample_step, hkvs, href, hcap, hdt]
          | none =>
              refine ⟨1, ?_⟩
              rw [make_sample_body_from_schema]
              simp [make_sample_step, hkvs, href, hcap]
        | null =>
            refine ⟨1, ?_⟩
            rw [make_sample_body_from_schema]
            simp [make_sample_step, hkvs, href]
        | bool b =>
            refine ⟨1, ?_⟩
            rw [make_sample_body_from_schema]
            simp [make_sample_step, hkvs, href]
        | int n2 =>
            refine ⟨1, ?_⟩
            rw [make_sample_body_from_schema]
            simp [make_sample_step, hkvs, href]
        | arr elems =>
            refine ⟨1, ?_⟩
            rw [make_sample_body_from_schema]
            simp [make_sample_step, hkvs, href]
        | obj fields2 =>
            refine ⟨1, ?_⟩
            rw [make_sample_body_from_schema]
            simp [make_sample_step, hkvs, href]
      | none =>
        by_cases hobj :
            ((if ((lookupField kvs "type").getD Json.null).truthy = false ∧
                  (lookupField kvs "properties").isSome = true
              then Json.str "object"
              else (lookupField kvs "type").getD Json.null).isStrEq "object") = true
        · cases hprops : (lookupField kvs "properties").getD (.obj []) with
          | obj pkvs =>
              have hrefs : refsOf (Json.obj kvs) = refsOfFields pkvs := by
                simp [refsOf, refsOfProps, hkvs, href, hobj, hprops]
              have hsz : sizeOf (Json.obj pkvs) < sizeOf (Json.obj kvs) := by
                have h1 := sizeOf_getD_emptyObj_lt kvs "properties" hkvsne
                rw [hprops] at h1
                exact h1
              have hchild : ∀ v ∈ pkvs.map Prod.snd,
                  ∃ f, make_sample_body_from_schema clock f v defs ≠ .diverge := by
                intro v hv
                obtain ⟨⟨k1, v1⟩, hmem, rfl⟩ := List.mem_map.mp hv
                have hs1 : sizeOf v1 < sizeOf (Json.obj pkvs) := sizeOf_val_lt_obj hmem
                have hs2 : sizeOf v1 < m := by
                  have h3 : sizeOf (Json.obj kvs) ≤ m := hsize
                  omega
                have hr2 : supRank rank (refsOf v1) ≤ n := by
                  rw [supRank_le_iff]
                  intro k2 hk2
                  have h4 : k2 ∈ refsOf (Json.obj kvs) := by
                    rw [hrefs]
                    exact mem_refsOfFields pkvs hmem hk2
                  have h5 := rank_lt_supRank rank _ h4
                  omega
                exact ihm (sizeOf v1) hs2 v1 hr2 (Nat.le_refl _)
              obtain ⟨F, hF⟩ := exists_shared_fuel clock defs (pkvs.map Prod.snd) hchild
              have hmn : mapFieldsM
                  (fun v => make_sample_body_from_schema clock F v defs) pkvs ≠
                  .diverge :=
                mapFieldsM_ne_diverge pkvs
                  (fun kv hkv => hF kv.2 (List.mem_map.mpr ⟨kv, hkv, rfl⟩))
              refine ⟨F + 1, ?_⟩
              rw [make_sample_body_from_schema]
              simp only [make_sample_step, hkvs, href, hobj, hprops]
              cases hmr : mapFieldsM
                  (fun v => make_sample_body_from_schema clock F v defs) pkvs with
              | ok fields => simp [make_sample_step, hkvs, href, hobj, hprops, hmr]
              | exn e => simp [make_sample_step, hkvs, href, hobj, hprops, hmr]
              | diverge => exact absurd hmr hmn
          | null =>
              refine ⟨1, ?_⟩
              rw [make_sample_body_from_schema]
              simp [make_sample_step, hkvs, href, hobj, hprops]
          | bool b =>
              refine ⟨1, ?_⟩
              rw [make_sample_body_from_schema]
              simp [make_sample_step, hkvs, href, hobj, hprops]
          | int n2 =>
              refine ⟨1, ?_⟩
              rw [make_sample_body_from_schema]
              simp [make_sample_step, hkvs, href, hobj, hprops]
          | str s =>
              refine ⟨1, ?_⟩
              rw [make_sample_body_from_schema]
              simp [make_sample_step, hkvs, href, hobj, hprops]
          | arr elems =>
              refine ⟨1, ?_⟩
              rw [make_sample_body_from_schema]
              simp [make_sample_step, hkvs, href, hobj, hprops]
        · by_cases harr :
              ((if ((lookupField kvs "type").getD Json.null).truthy = false ∧
                    (lookupField kvs "properties").isSome = true
                then Json.str "object"
                else (lookupField kvs "type").getD Json.null).isStrEq "array") = true
          · have hrefs : refsOf (Json.obj kvs) =
                refsOf ((lookupField kvs "items").getD (.obj [])) := by
              simp [refsOf, hkvs, href, hobj, harr]
            have hsz := sizeOf_getD_emptyObj_lt kvs "items" hkvsne
            obtain ⟨f, hf⟩ := ihm (sizeOf ((lookupField kvs "items").getD (.obj [])))
              (by have h3 : sizeOf (Json.obj kvs) ≤ m := hsize; omega)
              ((lookupField kvs "items").getD (.obj []))
              (by rw [← hrefs]; exact hrank) (Nat.le_refl _)
            refine ⟨f + 1, ?_⟩
            rw [make_sample_body_from_schema]
            simp only [make_sample_step, hkvs, href, hobj, harr]
            cases hmr : make_sample_body_from_schema clock f
                ((lookupField kvs "items").getD (.obj [])) defs with
            | ok v => simp [make_sample_step, hkvs, href, hobj, harr, hmr]
            | exn e => simp [make_sample_step, hkvs, href, hobj, harr, hmr]
            | diverge => exact absurd hmr hf
          · refine ⟨1, ?_⟩
            rw [make_sample_body_from_schema]
            simp [make_sample_step, hkvs, href, hobj, harr]
            repeat' split
            all_goals simp

theorem refsOf_resolve_bar (key : String) :
    refsOf (resolveDef (Json.obj [("Bar", Json.obj [("type", Json.str "integer")])]) key)
      = [] := by
  by_cases h1 : key = "Bar"
  · subst h1
    have h : resolveDef (Json.obj [("Bar", Json.obj [("type", Json.str "integer")])]) "Bar"
        = Json.obj [("type", Json.str "integer")] := rfl
    rw [h]
    simp [refsOf, lookupField]
  · have h1' : ¬ ("Bar" = key) := fun h => h1 h.symm
    by_cases h2 : stripQuotes key = "Bar"
    · have h : resolveDef (Json.obj [("Bar", Json.obj [("type", Json.str "integer")])]) key
          = Json.obj [("type", Json.str "integer")] := by
        simp [resolveDef, lookupField, pyOr, h1', h2]
      rw [h]
      simp [refsOf, lookupField]
    · have h2' : ¬ ("Bar" = stripQuotes key) := fun h => h2 h.symm
      have h : resolveDef (Json.obj [("Bar", Json.obj [("type", Json.str "integer")])]) key
          = Json.null := by
        simp [resolveDef, lookupField, pyOr, h1', h2']
      rw [h]
      simp [refsOf]

/-- C9: for every schema fragment and definitions table whose `$ref`
resolution graph is acyclic — witnessed by a rank function that strictly
decreases along every edge from a definition key to the references occurring
in its resolved body — `make_sample_body_from_schema` terminates: some finite
recursion fuel makes the sampler return without exhausting fuel (no
divergence), the recursion descending only into resolved references,
declared properties and array items. -/
theorem c9_acyclic_terminates (clock : PyClock) (defs : Json) (schema : Json)
    (rank : String → Nat)
    (hacc : ∀ key k2, k2 ∈ refsOf (resolveDef defs key) → rank k2 < rank key) :
    ∃ f, make_sample_body_from_schema clock f schema defs ≠ .diverge :=
  exists_fuel_of_rank clock defs rank hacc
    (supRank rank (refsOf schema)) (sizeOf schema) schema
    (Nat.le_refl _) (Nat.le_refl _)

theorem c9_acyclic_terminates_witness :
    (∀ key k2,
        k2 ∈ refsOf
          (resolveDef (Json.obj [("Bar", Json.obj [("type", Json.str "integer")])]) key) →
        (fun _ : String => 0) k2 < (fun _ : String => 0) key) ∧
    ∃ f, make_sample_body_from_schema ⟨"20240101", "2024-01-01T00:00:00Z"⟩ f
      (Json.obj [("$ref", Json.str "#/definitions/Bar")])
      (Json.obj [("Bar", Json.obj [("type", Json.str "integer")])]) ≠ PRes.diverge := by
  have hacc : ∀ key k2,
      k2 ∈ refsOf
        (resolveDef (Json.obj [("Bar", Json.obj [("type", Json.str "integer")])]) key) →
      (fun _ : String => 0) k2 < (fun _ : String => 0) key := by
    intro key k2 hm
    rw [refsOf_resolve_bar] at hm
    exact absurd hm (List.not_mem_nil _)
  exact ⟨hacc, c9_acyclic_terminates ⟨"20240101", "2024-01-01T00:00:00Z"⟩
    (Json.obj [("Bar", Json.obj [("type", Json.str "integer")])])
    (Json.obj [("$ref", Json.str "#/definitions/Bar")]) (fun _ => 0) hacc⟩
